import Mathlib

/-!
Verification development for the OUSD strategies allocation simulator
(`src/pages/index.tsx`).  The simulator's numeric core is shallowly embedded
here: JavaScript numbers are modelled by `JSNum := Option ℚ`, where `some q`
is a finite number and `none` stands for a non-finite value (`NaN`, `±∞`) or
an `undefined` operand appearing in an arithmetic position (all of which
behave identically in the arithmetic this program performs: every divisor in
the program is a sum of finite inputs, so the JavaScript cases
`finite / ±∞ = 0` never arise).  JavaScript objects keyed by strings are
modelled as association lists (insertion-ordered, like JS objects) or as
functions `String → Option _` where only point lookups occur.  Computations
that can throw a `TypeError` (destructuring a property of `undefined`) are
wrapped in an outer `Option`, with `none` for the thrown case.
-/

namespace OUSDSim

/-- JavaScript number: `some q` is a finite value, `none` is `NaN`/`±∞`
(or `undefined` used as an arithmetic operand, which coerces to `NaN`). -/
abbrev JSNum := Option ℚ

/-- JavaScript `+` on numbers: any non-finite operand yields a non-finite
result. -/
def jsAdd : JSNum → JSNum → JSNum
  | some a, some b => some (a + b)
  | _, _ => none

/-- JavaScript `*` on numbers: any non-finite operand yields a non-finite
result (`0 * NaN = NaN`, `0 * ∞ = NaN`). -/
def jsMul : JSNum → JSNum → JSNum
  | some a, some b => some (a * b)
  | _, _ => none

/-- JavaScript `/` on numbers.  Division by zero (`0/0 = NaN`,
`x/0 = ±∞`) and any non-finite operand produce a non-finite result.
(`finite / ±∞ = 0` is not modelled; in this program every divisor is a sum
of finite inputs or `undefined`, never `±∞`.) -/
def jsDiv : JSNum → JSNum → JSNum
  | some a, some b => if b = 0 then none else some (a / b)
  | _, _ => none

/-- JavaScript `x || 0` on a number-or-undefined value: `NaN`, `undefined`
and `0` are falsy and give `0`; any other number gives itself.  As a
rational result the `0` case coincides with the value itself, so this is
`Option.getD 0`. -/
def jsOrZero (x : JSNum) : ℚ := x.getD 0

/-- Strategy scope from the catalog: the `token` field is either a single
asset symbol or an array of symbols (`Array.isArray(token)` in the code). -/
inductive TokenScope where
  | single (t : String)
  | basket (ts : List String)
deriving DecidableEq, Repr

/-- One entry of the static `strategies` catalog in `src/pages/index.tsx`. -/
structure CatalogEntry where
  strategyId : String
  token : TokenScope
  apy : String
deriving DecidableEq, Repr

/-- The static `strategies` catalog (lines 166-242 of `src/pages/index.tsx`),
in source order. -/
def strategies : List CatalogEntry :=
  [ { strategyId := "aavestrat_holding", token := .single "DAI", apy := "ADAI" },
    { strategyId := "aavestrat_holding", token := .single "USDC", apy := "AUSDC" },
    { strategyId := "aavestrat_holding", token := .single "USDT", apy := "AUSDT" },
    { strategyId := "compstrat_holding", token := .single "DAI", apy := "cUSDT" },
    { strategyId := "compstrat_holding", token := .single "USDC", apy := "cUSDT" },
    { strategyId := "compstrat_holding", token := .single "USDT", apy := "cUSDT" },
    { strategyId := "threepoolstrat_holding",
      token := .basket ["DAI", "USDC", "USDT"], apy := "convex3pool" },
    { strategyId := "lusd_metastrat",
      token := .basket ["DAI", "USDC", "USDT"], apy := "convexLusd3Crv" },
    { strategyId := "ousd_metastrat",
      token := .basket ["DAI", "USDC", "USDT"], apy := "convexOusd3Crv" },
    { strategyId := "morpho_aave_strat", token := .single "DAI", apy := "morphoAaveDAI" },
    { strategyId := "morpho_aave_strat", token := .single "USDC", apy := "morphoAaveUSDC" },
    { strategyId := "morpho_aave_strat", token := .single "USDT", apy := "morphoAaveUSDT" },
    { strategyId := "morpho_strat", token := .single "DAI", apy := "morphoCompoundDAI" },
    { strategyId := "morpho_strat", token := .single "USDC", apy := "morphoCompoundUSDC" },
    { strategyId := "morpho_strat", token := .single "USDT", apy := "morphoCompoundUSDT" } ]

/-- The `stables` constant (line 244): `["DAI", "USDT", "USDC"]`. -/
def stables : List String := ["DAI", "USDT", "USDC"]

/-- The seven strategy identifiers appearing as keys of the initial
`allocations` state object (lines 249-277). -/
def strategyIds : List String :=
  [ "aavestrat_holding", "compstrat_holding", "threepoolstrat_holding",
    "lusd_metastrat", "ousd_metastrat", "morpho_aave_strat", "morpho_strat" ]

/-- Normalized yield quote `{base, reward}` as produced by the per-venue
normalizers.  Fields are `JSNum` because a normalizer can produce `NaN`
(e.g. `Number(undefined)`). -/
structure Quote where
  base : JSNum
  reward : JSNum
deriving DecidableEq, Repr

/-- One strategy record of the holdings snapshot: a display `name` and a
`holdings` object (token symbol → amount), modelled as an insertion-ordered
association list with finite amounts. -/
structure StratData where
  name : String
  holdings : List (String × ℚ)
deriving DecidableEq, Repr

/-- The holdings snapshot `ousdStrategies`: strategy id → strategy record,
as an insertion-ordered association list. -/
abbrev Snap := List (String × StratData)

/-- Property read `obj[k]` on an association-list object: value of the
first binding of `k`, or `none` (`undefined`) if absent. -/
def getVal : List (String × ℚ) → String → Option ℚ
  | [], _ => none
  | p :: rest, k => if p.1 = k then some p.2 else getVal rest k

/-- Property write `obj[k] = v`: replace the first binding of `k`, or
append a new binding (JS objects keep first-insertion key order). -/
def setKey : List (String × ℚ) → String → ℚ → List (String × ℚ)
  | [], k, v => [(k, v)]
  | p :: rest, k, v => if p.1 = k then (k, v) :: rest else p :: setKey rest k v

/-- Body of the inner loop of `processStrategies` (lines 147-152):
`if (!acc[token]) acc[token] = 0; acc[token] += holdings[token]`.  A missing
or zero (falsy) entry is treated as `0` before the increment, which is
exactly `getD 0`. -/
def addHolding (acc : List (String × ℚ)) (token : String) (amt : ℚ) :
    List (String × ℚ) :=
  setKey acc token ((getVal acc token).getD 0 + amt)

/-- `processStrategies` (lines 144-155): fold every strategy's holdings
into a per-token total, iterating objects in insertion order. -/
def processStrategies (data : Snap) : List (String × ℚ) :=
  data.foldl
    (fun acc entry => entry.2.holdings.foldl (fun a p => addHolding a p.1 p.2) acc)
    []

/-- `totalStables` (lines 297-300):
`stables.reduce((acc, key) => (acc += totalHoldings[key] || 0), 0)`. -/
def totalStables (data : Snap) : ℚ :=
  stables.foldl (fun acc key => acc + (getVal (processStrategies data) key).getD 0) 0

/-- `holdingsSummary` (lines 301-304): an object with exactly the three
stable keys, each mapped to `totalHoldings[token]` (possibly `undefined`).
Reading any other key also yields `undefined`. -/
def holdingsSummary (data : Snap) (token : String) : Option ℚ :=
  if token ∈ stables then getVal (processStrategies data) token else none

/-- Object lookup `ousdStrategies[strategyId]`: value of the first binding
of the key, or `none` (`undefined`) if absent. -/
def lookupStrat : Snap → String → Option StratData
  | [], _ => none
  | p :: rest, sid => if p.1 = sid then some p.2 else lookupStrat rest sid

/-- Per-strategy holding of one token, as read by the baseline-seeding
destructurings (lines 348-388): `strat?.holdings` then the token key;
`none` stands for an `undefined` read. -/
def holdingOf (data : Snap) (sid : String) (token : String) : Option ℚ :=
  (lookupStrat data sid).bind (fun sd => getVal sd.holdings token)

/-- Baseline allocation object built by `setAllocations` (lines 395-423):
for each of the three stable keys and seven strategy keys, the cell is
`holding / perAssetTotal` in JavaScript arithmetic; any other key is
absent (`undefined`). -/
def baselineAllocations (data : Snap) (token : String) (sid : String) : JSNum :=
  if token ∈ ["DAI", "USDC", "USDT"] ∧ sid ∈ strategyIds then
    jsDiv (holdingOf data sid token) (getVal (processStrategies data) token)
  else none

/-- The initial `allocations` state object (lines 249-277): every of the
`3 × 7` cells is `0`; any other key is absent (`undefined`). -/
def initialAllocations (token : String) (sid : String) : Option ℚ :=
  if token ∈ ["DAI", "USDC", "USDT"] ∧ sid ∈ strategyIds then some 0 else none

/-- `onChangeAllocation` (lines 486-494): functional update
`{...prev, [token]: {...prev[token], [strategy]: percent}}`.  Spreading an
`undefined` inner object yields `{}`, so an unknown `token` silently gains
a fresh inner object with the single written cell; no identifier
validation is performed and nothing throws. -/
def onChangeAllocation (prev : String → String → Option ℚ)
    (token sid : String) (percent : ℚ) : String → String → Option ℚ :=
  fun t s =>
    if t = token then (if s = sid then some percent else prev token s)
    else prev t s

/-- One projection row, as returned by the `strategies.map` body of the
`outcome` computation (lines 455-466).  `total` is `Option JSNum`: `none`
models a JavaScript `undefined` value of the `total` binding (the
single-asset branch destructures a `.total` property from a number),
`some v` a numeric value `v`. -/
structure Row where
  name : String
  total : Option JSNum
  allocation : JSNum
  allocationAmount : JSNum
  base : JSNum
  reward : JSNum
  strategy : JSNum
  boosted : JSNum
  weighted : JSNum
  token : TokenScope
deriving DecidableEq, Repr

/-- Assembly of the emitted row object (lines 451-466), given the strategy
record, the quote, the boost, `totalStables`, the computed allocation and
the computed `total` binding. -/
def rowOf (sd : StratData) (q : Quote) (boost : JSNum) (ts : ℚ)
    (allocation : JSNum) (tv : Option JSNum) (tok : TokenScope) : Row :=
  { name := sd.name
    total := tv
    allocation := allocation
    allocationAmount := jsMul allocation (some ts)
    base := q.base
    reward := q.reward
    strategy := jsAdd q.base q.reward
    boosted := jsMul (jsAdd q.base q.reward) boost
    weighted := jsMul allocation (jsMul (jsAdd q.base q.reward) boost)
    token := tok }

/-- The allocation fraction as the code computes it (lines 433-448): for a
single-asset entry one division
`allocations[token][strategyId] * totalHoldings[token] / totalStables`;
for a basket entry the loop accumulates the per-asset terms, each divided
by `totalStables` inside the loop. -/
def codeAllocation (snap : Snap) (alloc : String → String → Option ℚ)
    (e : CatalogEntry) : JSNum :=
  match e.token with
  | .single t =>
    jsDiv (jsMul (alloc t e.strategyId) (getVal (processStrategies snap) t))
      (some (totalStables snap))
  | .basket toks =>
    toks.foldl
      (fun acc ct =>
        jsAdd acc
          (jsDiv
            (jsMul (alloc ct e.strategyId) (getVal (processStrategies snap) ct))
            (some (totalStables snap))))
      (some 0)

/-- The `total` binding of the loop body (lines 434-449).  Basket entries
accumulate `holdingsSummary[currentToken]` (an `undefined` operand turns
the sum into `NaN`); single-asset entries destructure `.total` from
`holdingsSummary[token]`, which yields `undefined` when that summary entry
is a number and throws (outer `none`) when it is itself `undefined`. -/
def totalBinding (snap : Snap) (e : CatalogEntry) : Option (Option JSNum) :=
  match e.token with
  | .single t =>
    match holdingsSummary snap t with
    | none => none
    | some _ => some none
  | .basket toks =>
    some (some (toks.foldl (fun acc ct => jsAdd acc (holdingsSummary snap ct)) (some 0)))

/-- Body of the `strategies.map` callback (lines 426-467) for one catalog
entry.  The outer `Option` is the exception channel: `none` models the
`TypeError` thrown by `({ total } = holdingsSummary[token])` when the
summary entry is `undefined`; `some none` is the `null` row returned when
the strategy record or the quote is missing; `some (some r)` is an emitted
row. -/
def emitRow (snap : Snap) (apys : String → Option Quote)
    (alloc : String → String → Option ℚ) (boost : JSNum)
    (e : CatalogEntry) : Option (Option Row) :=
  match lookupStrat snap e.strategyId, apys e.apy with
  | some sd, some q =>
    match totalBinding snap e with
    | none => none
    | some tv =>
      some (some (rowOf sd q boost (totalStables snap)
        (codeAllocation snap alloc e) tv e.token))
  | _, _ => some none

/-- Left-to-right effectful map in the exception channel, mirroring how a
throwing callback aborts `Array.prototype.map`. -/
def mapOpt (f : α → Option β) : List α → Option (List β)
  | [] => some []
  | x :: xs => (f x).bind (fun y => (mapOpt f xs).map (fun ys => y :: ys))

/-- The `outcome` array (line 426): the catalog mapped through `emitRow`,
or `none` if some entry threw. -/
def outcomeList (snap : Snap) (apys : String → Option Quote)
    (alloc : String → String → Option ℚ) (boost : JSNum) :
    Option (List (Option Row)) :=
  mapOpt (emitRow snap apys alloc boost) strategies

/-- The summand `item?.weighted || 0` of the APY reduction: a `null` item
(or a `NaN` weighted value) contributes `0`. -/
def weightedOrZero : Option Row → ℚ
  | some r => jsOrZero r.weighted
  | none => 0

/-- `calculatedAPY` (lines 469-472):
`outcome.reduce((acc, item) => (acc += item?.weighted || 0), 0)`. -/
def calcAPY (l : List (Option Row)) : ℚ :=
  l.foldl (fun acc item => acc + weightedOrZero item) 0

/-- Sum of `weighted || 0` over the emitted (non-null) rows only; for rows
whose `weighted` is finite this is exactly the sum of their `weighted`
values. -/
def emittedWeightedSum (l : List (Option Row)) : ℚ :=
  (l.filterMap id).foldl (fun acc r => acc + jsOrZero r.weighted) 0

/-- Raw AAVE reserve record as consumed by `processAAVE` (lines 106-117);
`none` fields model absent JSON fields (`undefined`). -/
structure RawReserve where
  symbol : String
  liquidityRate : Option ℚ
  aIncentivesAPY : Option ℚ
deriving DecidableEq, Repr

/-- Raw Compound cToken record as consumed by `processCompound`
(lines 119-130).  The rate fields model the `{value}` wrapper objects:
`none` means the wrapper object itself is absent, in which case the
`.value` access throws. -/
structure RawCToken where
  symbol : String
  supply_rate : Option ℚ
  comp_supply_apy : Option ℚ
deriving DecidableEq, Repr

/-- Raw DefiLlama chart point as consumed by `processDefiLlama`
(lines 132-142); `none` fields model absent JSON fields. -/
structure RawLlamaPoint where
  apyBase : Option ℚ
  apyReward : Option ℚ
deriving DecidableEq, Repr

/-- `Object.keys(aaveTokens)` (lines 36-46). -/
def aTokenKeys : List String := ["ADAI", "AUSDC", "AUSDT"]

/-- `Object.keys(compoundTokens)` (lines 48-58). -/
def cTokenKeys : List String := ["cDAI", "cUSDC", "cUSDT"]

/-- Property write on a quote object, same first-binding-wins update shape
as `setKey`. -/
def setQuote : List (String × Quote) → String → Quote → List (String × Quote)
  | [], k, v => [(k, v)]
  | p :: rest, k, v => if p.1 = k then (k, v) :: rest else p :: setQuote rest k v

/-- `processAAVE` (lines 106-117).  For a recognized symbol,
`base = Number(liquidityRate)` (which is `NaN` when the field is absent)
and `reward = Number(aIncentivesAPY || 0)` (which defaults to `0`).
Unrecognized symbols are skipped. -/
def processAAVE (reserves : List RawReserve) : List (String × Quote) :=
  reserves.foldl
    (fun acc r =>
      if r.symbol ∈ aTokenKeys then
        setQuote acc r.symbol
          { base := r.liquidityRate
            reward := some (r.aIncentivesAPY.getD 0) }
      else acc)
    []

/-- Recursive worker for `processCompound`: for a recognized symbol the
code reads `supply_rate.value` and `comp_supply_apy.value`, throwing
(`none`) when either wrapper object is absent. -/
def processCompoundGo (acc : List (String × Quote)) :
    List RawCToken → Option (List (String × Quote))
  | [] => some acc
  | c :: rest =>
    if c.symbol ∈ cTokenKeys then
      match c.supply_rate, c.comp_supply_apy with
      | some sr, some ca =>
        processCompoundGo
          (setQuote acc c.symbol { base := some sr, reward := some (ca / 100) })
          rest
      | _, _ => none
    else processCompoundGo acc rest

/-- `processCompound` (lines 119-130), with the exception channel for the
`.value` access on an absent wrapper object. -/
def processCompound (l : List RawCToken) : Option (List (String × Quote)) :=
  processCompoundGo [] l

/-- `processDefiLlama` (lines 132-142): destructures
`{apyBase = 0, apyReward = 0}` from `data.pop()` (the last point), throwing
(`none`) when the series is empty, and scales both rates by `1/100`. -/
def processDefiLlama (pool : String) (data : List RawLlamaPoint) :
    Option (List (String × Quote)) :=
  match data.getLast? with
  | none => none
  | some p =>
    some [(pool,
      { base := some (p.apyBase.getD 0 / 100)
        reward := some (p.apyReward.getD 0 / 100) })]

/-- Modelled from the spec's projection contract (§4.4 step 1): for a
single-asset strategy
`allocation = allocationMatrix[a][strategy] * perAssetTotal[a] / grandTotal`,
and for a basket strategy the sum of the per-asset products divided once by
`grandTotal`. -/
def specAllocationFraction (snap : Snap) (alloc : String → String → Option ℚ)
    (e : CatalogEntry) : JSNum :=
  match e.token with
  | .single a =>
    jsDiv (jsMul (alloc a e.strategyId) (getVal (processStrategies snap) a))
      (some (totalStables snap))
  | .basket toks =>
    jsDiv
      (toks.foldl
        (fun acc ai =>
          jsAdd acc
            (jsMul (alloc ai e.strategyId) (getVal (processStrategies snap) ai)))
        (some 0))
      (some (totalStables snap))

/-- The value of the `total` field of an emitted row, by entry kind:
`undefined` for a single-asset entry, the sum of the per-asset holdings
summaries for a basket entry. -/
def specRowTotal (snap : Snap) (e : CatalogEntry) : Option JSNum :=
  match e.token with
  | .single _ => none
  | .basket toks =>
    some (toks.foldl (fun acc ct => jsAdd acc (holdingsSummary snap ct)) (some 0))

/-- Sum of the values of an association-list object, i.e.
`Σ over all assets of perAssetTotal[asset]` when applied to
`processStrategies` output. -/
def fullSum (l : List (String × ℚ)) : ℚ :=
  l.foldl (fun acc p => acc + p.2) 0

/-- A snapshot containing all seven catalog strategies, each holding `0`
DAI (and nonzero other stables), so that the DAI per-asset total is `0`. -/
def zeroDaiSnap : Snap :=
  strategyIds.map (fun sid => (sid, { name := sid, holdings := [("DAI", 0), ("USDC", 1), ("USDT", 1)] }))

/-- A snapshot containing all seven catalog strategies with every stable
holding equal to `0`, so the grand total is `0`. -/
def allZeroSnap : Snap :=
  strategyIds.map (fun sid => (sid, { name := sid, holdings := [("DAI", 0), ("USDC", 0), ("USDT", 0)] }))

/-- A quote table with the same finite quote for every key. -/
def constQuotes : String → Option Quote :=
  fun _ => some { base := some (1 / 25), reward := some (1 / 100) }

/-- A small demonstration snapshot: one strategy holding 100 DAI. -/
def demoSnap : Snap :=
  [("aavestrat_holding", { name := "Aave", holdings := [("DAI", 100)] })]

/-- A quote table defined only at the key `"ADAI"`. -/
def demoQuotes : String → Option Quote :=
  fun k => if k = "ADAI" then some { base := some (1 / 25), reward := some (1 / 100) } else none

/-- The demonstration projection output (it does not throw, so `getD` does
not take its default). -/
def demoList : List (Option Row) :=
  (outcomeList demoSnap demoQuotes initialAllocations (some 2)).getD []

/-- The row emitted for the first catalog entry of the demonstration
projection. -/
def demoRow : Row :=
  ((demoList.get? 0).bind id).getD
    { name := "", total := none, allocation := none, allocationAmount := none,
      base := none, reward := none, strategy := none, boosted := none,
      weighted := none, token := .single "" }

/-- The demonstration projection output with a zero boost multiplier. -/
def demoListZeroBoost : List (Option Row) :=
  (outcomeList demoSnap demoQuotes initialAllocations (some 0)).getD []

/-- A snapshot whose holdings mention a token outside the three canonical
stables. -/
def mixedTokenSnap : Snap :=
  [("strat1", { name := "S1", holdings := [("DAI", 1), ("COMP", 5)] })]

/-! Helper lemmas about the JavaScript arithmetic model. -/

theorem jsAdd_none_left (y : JSNum) : jsAdd none y = none := by
  cases y <;> rfl

theorem jsAdd_none_right (x : JSNum) : jsAdd x none = none := by
  cases x <;> rfl

theorem jsDiv_by_zero (x : JSNum) : jsDiv x (some 0) = none := by
  cases x <;> simp [jsDiv]

theorem jsAdd_div (a b : JSNum) (T : ℚ) :
    jsAdd (jsDiv a (some T)) (jsDiv b (some T)) = jsDiv (jsAdd a b) (some T) := by
  by_cases hT : T = 0
  · subst hT
    rw [jsDiv_by_zero, jsDiv_by_zero, jsDiv_by_zero]
    rfl
  · cases a <;> cases b <;> simp [jsAdd, jsDiv, hT, div_add_div_same]

theorem foldl_jsAdd_none {α : Type} (g : α → JSNum) (l : List α) :
    l.foldl (fun acc x => jsAdd acc (g x)) none = none := by
  induction l with
  | nil => rfl
  | cons x xs ih =>
    simp only [List.foldl_cons, jsAdd_none_left]
    exact ih

theorem foldl_div {α : Type} (f : α → JSNum) (T : ℚ) (toks : List α) (a : JSNum) :
    toks.foldl (fun acc x => jsAdd acc (jsDiv (f x) (some T))) (jsDiv a (some T)) =
      jsDiv (toks.foldl (fun acc x => jsAdd acc (f x)) a) (some T) := by
  induction toks generalizing a with
  | nil => rfl
  | cons x xs ih =>
    simp only [List.foldl_cons, jsAdd_div]
    exact ih (jsAdd a (f x))

theorem foldl_divzero {α : Type} (f : α → JSNum) (c : α) (cs : List α) (a : JSNum) :
    (c :: cs).foldl (fun acc x => jsAdd acc (jsDiv (f x) (some 0))) a = none := by
  rw [List.foldl_cons, jsDiv_by_zero, jsAdd_none_right]
  exact foldl_jsAdd_none _ cs

/-- Basket entries of the catalog are never empty. -/
theorem catalog_basket_ne_empty : ∀ e ∈ strategies, e.token ≠ TokenScope.basket [] := by
  decide

/-- For catalog entries, the loop that divides each basket term by
`totalStables` separately (the code) agrees with dividing the summed
numerator once (the spec formula), in JavaScript arithmetic. -/
theorem codeAllocation_eq_spec (snap : Snap) (alloc : String → String → Option ℚ)
    (e : CatalogEntry) (he : e ∈ strategies) :
    codeAllocation snap alloc e = specAllocationFraction snap alloc e := by
  cases htok : e.token with
  | single t => simp [codeAllocation, specAllocationFraction, htok]
  | basket toks =>
    cases toks with
    | nil => exact absurd htok (catalog_basket_ne_empty e he)
    | cons c cs =>
      by_cases hT : totalStables snap = 0
      · simp only [codeAllocation, specAllocationFraction, htok, hT]
        rw [foldl_divzero, jsDiv_by_zero]
      · have h0 : (some 0 : JSNum) = jsDiv (some 0) (some (totalStables snap)) := by
          simp [jsDiv, hT]
        simp only [codeAllocation, specAllocationFraction, htok]
        conv_lhs => rw [h0]
        exact foldl_div _ _ _ _

/-! Helper lemmas about `mapOpt`. -/

theorem mapOpt_length {α β : Type} (f : α → Option β) :
    ∀ {xs : List α} {ys : List β}, mapOpt f xs = some ys → ys.length = xs.length := by
  intro xs
  induction xs with
  | nil =>
    intro ys h
    simp only [mapOpt, Option.some.injEq] at h
    subst h
    rfl
  | cons x xs ih =>
    intro ys h
    simp only [mapOpt, Option.bind_eq_some, Option.map_eq_some'] at h
    obtain ⟨y, _, ys', hys', rfl⟩ := h
    simp [ih hys']

theorem mapOpt_get {α β : Type} (f : α → Option β) :
    ∀ {xs : List α} {ys : List β} {i : ℕ} {x : α},
      mapOpt f xs = some ys → xs[i]? = some x →
      ∃ y, ys[i]? = some y ∧ f x = some y := by
  intro xs
  induction xs with
  | nil =>
    intro ys i x _ hx
    simp at hx
  | cons a as ih =>
    intro ys i x h hx
    simp only [mapOpt, Option.bind_eq_some, Option.map_eq_some'] at h
    obtain ⟨y, hy, ys', hys', rfl⟩ := h
    cases i with
    | zero =>
      simp only [List.getElem?_cons_zero, Option.some.injEq] at hx
      subst hx
      exact ⟨y, by simp, hy⟩
    | succ i =>
      simp only [List.getElem?_cons_succ] at hx ⊢
      exact ih hys' hx

theorem mapOpt_mem {α β : Type} (f : α → Option β) :
    ∀ {xs : List α} {ys : List β} {y : β},
      mapOpt f xs = some ys → y ∈ ys → ∃ x, x ∈ xs ∧ f x = some y := by
  intro xs
  induction xs with
  | nil =>
    intro ys y h hy
    simp only [mapOpt, Option.some.injEq] at h
    subst h
    simp at hy
  | cons a as ih =>
    intro ys y h hy
    simp only [mapOpt, Option.bind_eq_some, Option.map_eq_some'] at h
    obtain ⟨y', hy', ys', hys', rfl⟩ := h
    rcases List.mem_cons.mp hy with rfl | hmem
    · exact ⟨a, List.mem_cons_self a as, hy'⟩
    · obtain ⟨x, hx, hfx⟩ := ih hys' hmem
      exact ⟨x, List.mem_cons_of_mem a hx, hfx⟩

/-! Helper lemmas about the APY reduction. -/

theorem calcAPY_foldl_filterMap (l : List (Option Row)) :
    ∀ a : ℚ,
      l.foldl (fun acc item => acc + weightedOrZero item) a =
        (l.filterMap id).foldl (fun acc r => acc + jsOrZero r.weighted) a := by
  induction l with
  | nil => intro a; rfl
  | cons it l ih =>
    intro a
    cases it with
    | none =>
      rw [List.foldl_cons, List.filterMap_cons_none (show id (none : Option Row) = none from rfl)]
      show l.foldl _ (a + 0) = _
      rw [add_zero]
      exact ih a
    | some r =>
      rw [List.foldl_cons,
        List.filterMap_cons_some (show id (some r) = some r from rfl), List.foldl_cons]
      exact ih (a + jsOrZero r.weighted)

theorem calcAPY_eq_emittedWeightedSum (l : List (Option Row)) :
    calcAPY l = emittedWeightedSum l :=
  calcAPY_foldl_filterMap l 0

theorem calcAPY_foldl_eraseIdx :
    ∀ (l : List (Option Row)) (i : ℕ) (a : ℚ), l[i]? = some none →
      l.foldl (fun acc item => acc + weightedOrZero item) a =
        (l.eraseIdx i).foldl (fun acc item => acc + weightedOrZero item) a := by
  intro l
  induction l with
  | nil => intro i a h; simp at h
  | cons it l ih =>
    intro i a h
    cases i with
    | zero =>
      simp only [List.getElem?_cons_zero, Option.some.injEq] at h
      subst h
      show l.foldl _ (a + weightedOrZero none) = l.foldl _ a
      rw [show weightedOrZero none = 0 from rfl, add_zero]
    | succ i =>
      simp only [List.getElem?_cons_succ] at h
      show l.foldl _ (a + weightedOrZero it) = (l.eraseIdx i).foldl _ (a + weightedOrZero it)
      exact ih i _ h

theorem calcAPY_eraseIdx (l : List (Option Row)) (i : ℕ) (h : l[i]? = some none) :
    calcAPY l = calcAPY (l.eraseIdx i) :=
  calcAPY_foldl_eraseIdx l i 0 h

/-! Helper lemmas about `emitRow`. -/

theorem emitRow_elim {snap : Snap} {apys : String → Option Quote}
    {alloc : String → String → Option ℚ} {boost : JSNum} {e : CatalogEntry} {r : Row}
    (h : emitRow snap apys alloc boost e = some (some r)) :
    ∃ sd q tv, lookupStrat snap e.strategyId = some sd ∧ apys e.apy = some q ∧
      totalBinding snap e = some tv ∧
      r = rowOf sd q boost (totalStables snap) (codeAllocation snap alloc e) tv
        e.token := by
  unfold emitRow at h
  cases hls : lookupStrat snap e.strategyId <;> rw [hls] at h
  · simp at h
  · cases hq : apys e.apy <;> rw [hq] at h
    · simp at h
    · cases htb : totalBinding snap e <;> rw [htb] at h
      · simp at h
      · simp only [Option.some.injEq] at h
        exact ⟨_, _, _, rfl, rfl, rfl, h.symm⟩

theorem emitRow_quote_missing {snap : Snap} {apys : String → Option Quote}
    {alloc : String → String → Option ℚ} {boost : JSNum} {e : CatalogEntry}
    (hq : apys e.apy = none) :
    emitRow snap apys alloc boost e = some none := by
  unfold emitRow
  cases hls : lookupStrat snap e.strategyId <;> simp [hq]

/-! Helper lemmas about the holdings aggregation. -/

theorem getVal_eq_none {l : List (String × ℚ)} {k : String}
    (h : k ∉ l.map Prod.fst) : getVal l k = none := by
  induction l with
  | nil => rfl
  | cons p rest ih =>
    simp only [List.map_cons, List.mem_cons, not_or] at h
    have h1 : ¬(p.1 = k) := fun hh => h.1 hh.symm
    simp [getVal, h1, ih h.2]

theorem mem_keys_setKey :
    ∀ {l : List (String × ℚ)} {k : String} {v : ℚ} {k' : String},
      k' ∈ (setKey l k v).map Prod.fst → k' ∈ l.map Prod.fst ∨ k' = k := by
  intro l
  induction l with
  | nil =>
    intro k v k' h
    simp only [setKey, List.map_cons, List.map_nil, List.mem_singleton] at h
    right
    exact h
  | cons p rest ih =>
    intro k v k' h
    rw [setKey] at h
    by_cases hp : p.1 = k
    · rw [if_pos hp] at h
      simp only [List.map_cons, List.mem_cons] at h ⊢
      rcases h with rfl | h
      · right; rfl
      · left; right; exact h
    · rw [if_neg hp] at h
      simp only [List.map_cons, List.mem_cons] at h ⊢
      rcases h with rfl | h
      · left; left; rfl
      · rcases ih h with h' | h'
        · left; right; exact h'
        · right; exact h'

theorem nodup_keys_setKey :
    ∀ {l : List (String × ℚ)} {k : String} {v : ℚ},
      (l.map Prod.fst).Nodup → ((setKey l k v).map Prod.fst).Nodup := by
  intro l
  induction l with
  | nil => intro k v _; simp [setKey]
  | cons p rest ih =>
    intro k v h
    rw [List.map_cons, List.nodup_cons] at h
    rw [setKey]
    by_cases hp : p.1 = k
    · rw [if_pos hp, List.map_cons, List.nodup_cons]
      exact ⟨hp ▸ h.1, h.2⟩
    · rw [if_neg hp, List.map_cons, List.nodup_cons]
      refine ⟨fun hmem => ?_, ih h.2⟩
      rcases mem_keys_setKey hmem with h' | h'
      · exact h.1 h'
      · exact hp h'

theorem foldH_nodup (hs : List (String × ℚ)) :
    ∀ acc : List (String × ℚ), (acc.map Prod.fst).Nodup →
      (((hs.foldl (fun a p => addHolding a p.1 p.2) acc)).map Prod.fst).Nodup := by
  induction hs with
  | nil => intro acc h; exact h
  | cons p hs ih => intro acc h; exact ih _ (nodup_keys_setKey h)

theorem foldData_nodup (data : Snap) :
    ∀ acc : List (String × ℚ), (acc.map Prod.fst).Nodup →
      ((data.foldl
        (fun acc e => e.2.holdings.foldl (fun a p => addHolding a p.1 p.2) acc)
        acc).map Prod.fst).Nodup := by
  induction data with
  | nil => intro acc h; exact h
  | cons ed data ih => intro acc h; exact ih _ (foldH_nodup _ _ h)

theorem nodup_keys_processStrategies (data : Snap) :
    ((processStrategies data).map Prod.fst).Nodup :=
  foldData_nodup data [] (by simp)

theorem mem_keys_foldH (hs : List (String × ℚ)) :
    ∀ (acc : List (String × ℚ)) (k : String),
      k ∈ (hs.foldl (fun a p => addHolding a p.1 p.2) acc).map Prod.fst →
      k ∈ acc.map Prod.fst ∨ k ∈ hs.map Prod.fst := by
  induction hs with
  | nil => intro acc k h; left; exact h
  | cons p hs ih =>
    intro acc k h
    rcases ih _ k h with h' | h'
    · rcases mem_keys_setKey h' with h'' | h''
      · left; exact h''
      · right; simp [h'']
    · right; simp [h']

theorem mem_keys_foldData :
    ∀ (data : Snap) (acc : List (String × ℚ)) (k : String),
      k ∈ (data.foldl
        (fun acc e => e.2.holdings.foldl (fun a p => addHolding a p.1 p.2) acc)
        acc).map Prod.fst →
      k ∈ acc.map Prod.fst ∨ ∃ e ∈ data, k ∈ e.2.holdings.map Prod.fst := by
  intro data
  induction data with
  | nil => intro acc k h; left; exact h
  | cons ed data ih =>
    intro acc k h
    rcases ih _ k h with h' | h'
    · rcases mem_keys_foldH _ _ _ h' with h'' | h''
      · left; exact h''
      · right; exact ⟨ed, by simp, h''⟩
    · right
      obtain ⟨e, he, hk⟩ := h'
      exact ⟨e, by simp [he], hk⟩

theorem mem_keys_processStrategies {data : Snap} {k : String}
    (h : k ∈ (processStrategies data).map Prod.fst) :
    ∃ e ∈ data, k ∈ e.2.holdings.map Prod.fst := by
  rcases mem_keys_foldData data [] k h with h' | h'
  · simp at h'
  · exact h'

theorem foldl_add_eq_sum {α : Type} (f : α → ℚ) :
    ∀ (l : List α) (c : ℚ), l.foldl (fun acc x => acc + f x) c = c + (l.map f).sum := by
  intro l
  induction l with
  | nil => intro c; simp
  | cons x xs ih => intro c; simp [ih, add_assoc]

theorem sum_map_zero (S : List String) : (S.map (fun _ => (0 : ℚ))).sum = 0 := by
  induction S <;> simp [*]

theorem sum_map_ite (v₀ : ℚ) (g : String → ℚ) :
    ∀ S : List String, S.Nodup → ∀ k₀ ∈ S, g k₀ = 0 →
      (S.map (fun k => if k₀ = k then v₀ else g k)).sum = v₀ + (S.map g).sum := by
  intro S
  induction S with
  | nil => intro _ k₀ h; simp at h
  | cons a S ih =>
    intro hnd k₀ hk hg
    rw [List.nodup_cons] at hnd
    rcases List.mem_cons.mp hk with rfl | hk'
    · have hcong : S.map (fun k => if k₀ = k then v₀ else g k) = S.map g := by
        apply List.map_congr_left
        intro b hb
        exact if_neg (fun hh => hnd.1 (by rw [hh]; exact hb))
      rw [List.map_cons, List.map_cons, List.sum_cons, List.sum_cons, hcong, hg,
        if_pos rfl]
      ring
    · have hne : ¬(k₀ = a) := fun hh => hnd.1 (hh ▸ hk')
      simp only [List.map_cons, List.sum_cons, if_neg hne]
      rw [ih hnd.2 k₀ hk' hg]
      ring

theorem sum_getVal (S : List String) (hS : S.Nodup) :
    ∀ l : List (String × ℚ), (l.map Prod.fst).Nodup → (∀ p ∈ l, p.1 ∈ S) →
      (S.map (fun k => (getVal l k).getD 0)).sum = (l.map Prod.snd).sum := by
  intro l
  induction l with
  | nil =>
    intro _ _
    simp only [List.map_nil, List.sum_nil]
    exact sum_map_zero S
  | cons p l ih =>
    intro hnd hsub
    obtain ⟨k₀, v₀⟩ := p
    rw [List.map_cons, List.nodup_cons] at hnd
    have hmap : S.map (fun k => (getVal ((k₀, v₀) :: l) k).getD 0) =
        S.map (fun k => if k₀ = k then v₀ else (getVal l k).getD 0) := by
      apply List.map_congr_left
      intro b _
      by_cases hb : k₀ = b <;> simp [getVal, hb]
    rw [hmap,
      sum_map_ite v₀ _ S hS k₀ (hsub (k₀, v₀) (by simp))
        (by rw [getVal_eq_none hnd.1]; rfl),
      List.map_cons, List.sum_cons]
    congr 1
    exact ih hnd.2 (fun q hq => hsub q (by simp [hq]))

theorem totalStables_eq_sum (data : Snap) :
    totalStables data =
      (stables.map (fun k => (getVal (processStrategies data) k).getD 0)).sum := by
  rw [totalStables, foldl_add_eq_sum, zero_add]

theorem fullSum_eq_sum (l : List (String × ℚ)) :
    fullSum l = (l.map Prod.snd).sum := by
  rw [fullSum, foldl_add_eq_sum, zero_add]

theorem totalBinding_spec {snap : Snap} {e : CatalogEntry} {tv : Option JSNum}
    (h : totalBinding snap e = some tv) : tv = specRowTotal snap e := by
  obtain ⟨sid, tok, apy⟩ := e
  cases tok with
  | single t =>
    simp only [totalBinding] at h
    cases hhs : holdingsSummary snap t <;> rw [hhs] at h
    · simp at h
    · simp only [Option.some.injEq] at h
      simp [specRowTotal, ← h]
  | basket toks =>
    simp only [totalBinding, Option.some.injEq] at h
    simp [specRowTotal, ← h]

/-! Helper lemmas about the quote normalizers. -/

theorem mem_setQuote :
    ∀ {l : List (String × Quote)} {k : String} {v : Quote} {p : String × Quote},
      p ∈ setQuote l k v → p ∈ l ∨ p.1 = k := by
  intro l
  induction l with
  | nil =>
    intro k v p h
    simp only [setQuote, List.mem_singleton] at h
    right
    rw [h]
  | cons q rest ih =>
    intro k v p h
    rw [setQuote] at h
    by_cases hq : q.1 = k
    · rw [if_pos hq] at h
      rcases List.mem_cons.mp h with rfl | h'
      · right; rfl
      · left; exact List.mem_cons_of_mem _ h'
    · rw [if_neg hq] at h
      rcases List.mem_cons.mp h with rfl | h'
      · left; exact List.mem_cons_self _ _
      · rcases ih h' with h'' | h''
        · left; exact List.mem_cons_of_mem _ h''
        · right; exact h''

theorem processAAVE_fold_mem (l : List RawReserve) :
    ∀ (acc : List (String × Quote)) (p : String × Quote),
      p ∈ l.foldl
        (fun acc r =>
          if r.symbol ∈ aTokenKeys then
            setQuote acc r.symbol
              { base := r.liquidityRate, reward := some (r.aIncentivesAPY.getD 0) }
          else acc)
        acc →
      p ∈ acc ∨ p.1 ∈ aTokenKeys := by
  induction l with
  | nil => intro acc p h; left; exact h
  | cons r l ih =>
    intro acc p h
    rcases ih _ p h with h' | h'
    · dsimp only at h'
      by_cases hr : r.symbol ∈ aTokenKeys
      · rw [if_pos hr] at h'
        rcases mem_setQuote h' with h'' | h''
        · left; exact h''
        · right; rw [h'']; exact hr
      · rw [if_neg hr] at h'
        left
        exact h'
    · right; exact h'

theorem processCompoundGo_mem :
    ∀ (l : List RawCToken) (acc res : List (String × Quote)),
      processCompoundGo acc l = some res →
      ∀ p ∈ res, p ∈ acc ∨ p.1 ∈ cTokenKeys := by
  intro l
  induction l with
  | nil =>
    intro acc res h p hp
    simp only [processCompoundGo, Option.some.injEq] at h
    subst h
    left
    exact hp
  | cons c l ih =>
    intro acc res h p hp
    rw [processCompoundGo] at h
    by_cases hc : c.symbol ∈ cTokenKeys
    · rw [if_pos hc] at h
      cases hsr : c.supply_rate <;> rw [hsr] at h
      · simp at h
      · cases hca : c.comp_supply_apy <;> rw [hca] at h
        · simp at h
        · rcases ih _ res h p hp with h' | h'
          · rcases mem_setQuote h' with h'' | h''
            · left; exact h''
            · right; rw [h'']; exact hc
          · right; exact h'
    · rw [if_neg hc] at h
      exact ih _ res h p hp

/-! Helper lemma for the zero-boost reduction. -/

theorem foldl_zero_contrib :
    ∀ (l : List (Option Row)) (a : ℚ), (∀ item ∈ l, weightedOrZero item = 0) →
      l.foldl (fun acc item => acc + weightedOrZero item) a = a := by
  intro l
  induction l with
  | nil => intro a _; rfl
  | cons it l ih =>
    intro a h
    rw [List.foldl_cons, h it (List.mem_cons_self _ _), add_zero]
    exact ih a (fun x hx => h x (List.mem_cons_of_mem _ hx))

/-! Claim theorems. -/

/-- C1: for every catalog entry with a present strategy record and a
normalized quote, the emitted projection row satisfies the spec's
projection equations: `allocation` equals the spec's cross-asset fraction
(single-asset product over `grandTotal`, or the basket sum divided once by
`grandTotal`); `strategyRate = base + reward`;
`boostedRate = strategyRate * boost`; `weighted = allocation * boostedRate`;
`allocationAmount = allocation * grandTotal`; and the blended APY is the
sum of `weighted` over all emitted rows. -/
theorem c1_emitted_row_formulas (snap : Snap) (apys : String → Option Quote)
    (alloc : String → String → Option ℚ) (boost : JSNum)
    (l : List (Option Row)) (i : ℕ) (e : CatalogEntry) (r : Row)
    (hout : outcomeList snap apys alloc boost = some l)
    (he : strategies[i]? = some e)
    (hr : l[i]? = some (some r)) :
    r.allocation = specAllocationFraction snap alloc e ∧
    r.strategy = jsAdd r.base r.reward ∧
    r.boosted = jsMul r.strategy boost ∧
    r.weighted = jsMul r.allocation r.boosted ∧
    r.allocationAmount = jsMul r.allocation (some (totalStables snap)) ∧
    calcAPY l = emittedWeightedSum l := by
  obtain ⟨y, hy, hfy⟩ := mapOpt_get _ hout he
  obtain rfl := Option.some.inj (hy.symm.trans hr)
  obtain ⟨sd, q, tv, hls, hq, htb, hrow⟩ := emitRow_elim hfy
  subst hrow
  have hmem : e ∈ strategies := by
    rw [List.getElem?_eq_some] at he
    obtain ⟨hlt, rfl⟩ := he
    exact List.getElem_mem hlt
  exact ⟨codeAllocation_eq_spec snap alloc e hmem, rfl, rfl, rfl, rfl,
    calcAPY_eq_emittedWeightedSum l⟩

/-- C1 witness: evaluation of the theorem on a concrete snapshot, quote
table and allocation matrix, at the first catalog entry. -/
theorem c1_emitted_row_formulas_witness :
    demoRow.allocation =
      specAllocationFraction demoSnap initialAllocations
        { strategyId := "aavestrat_holding", token := .single "DAI", apy := "ADAI" } ∧
    demoRow.strategy = jsAdd demoRow.base demoRow.reward ∧
    demoRow.boosted = jsMul demoRow.strategy (some 2) ∧
    demoRow.weighted = jsMul demoRow.allocation demoRow.boosted ∧
    demoRow.allocationAmount = jsMul demoRow.allocation (some (totalStables demoSnap)) ∧
    calcAPY demoList = emittedWeightedSum demoList :=
  c1_emitted_row_formulas demoSnap demoQuotes initialAllocations (some 2)
    demoList 0
    { strategyId := "aavestrat_holding", token := .single "DAI", apy := "ADAI" }
    demoRow (by rfl) (by rfl) (by rfl)

/-- C2: for every catalog entry whose quote key has no normalized quote,
the projection contains a `null` at that entry's position (no row is
emitted for it), and removing that position leaves the blended APY
unchanged, so the entry contributes nothing. -/
theorem c2_missing_quote_omits_row (snap : Snap) (apys : String → Option Quote)
    (alloc : String → String → Option ℚ) (boost : JSNum)
    (l : List (Option Row)) (i : ℕ) (e : CatalogEntry)
    (hout : outcomeList snap apys alloc boost = some l)
    (he : strategies[i]? = some e)
    (hq : apys e.apy = none) :
    l[i]? = some none ∧ calcAPY l = calcAPY (l.eraseIdx i) := by
  obtain ⟨y, hy, hfy⟩ := mapOpt_get _ hout he
  obtain rfl := Option.some.inj ((emitRow_quote_missing hq).symm.trans hfy)
  exact ⟨hy, calcAPY_eraseIdx l i hy⟩

/-- C2 witness: evaluation on a concrete projection whose second catalog
entry has no quote. -/
theorem c2_missing_quote_omits_row_witness :
    demoList[1]? = some none ∧ calcAPY demoList = calcAPY (demoList.eraseIdx 1) :=
  c2_missing_quote_omits_row demoSnap demoQuotes initialAllocations (some 2)
    demoList 1
    { strategyId := "aavestrat_holding", token := .single "USDC", apy := "AUSDC" }
    (by rfl) (by rfl) (by rfl)

/-- C5: the projection is deterministic — it is a pure function of the
snapshot, quotes, allocation matrix and boost, so equal inputs give the
identical output — and its rows appear in the fixed catalog order: the
output has one slot per catalog entry, and the row at position `i`
carries the token scope of catalog entry `i` and the display name of that
entry's strategy record. -/
theorem c5_deterministic_catalog_order (snap : Snap) (apys : String → Option Quote)
    (alloc : String → String → Option ℚ) (boost : JSNum)
    (l : List (Option Row))
    (hout : outcomeList snap apys alloc boost = some l) :
    l.length = strategies.length ∧
    (∀ (i : ℕ) (e : CatalogEntry) (r : Row), strategies[i]? = some e →
      l[i]? = some (some r) →
      r.token = e.token ∧
      ∃ sd, lookupStrat snap e.strategyId = some sd ∧ r.name = sd.name) ∧
    (∀ snap' apys' alloc' boost', snap' = snap → apys' = apys → alloc' = alloc →
      boost' = boost → outcomeList snap' apys' alloc' boost' = some l) := by
  refine ⟨mapOpt_length _ hout, ?_, ?_⟩
  · intro i e r he hr
    obtain ⟨y, hy, hfy⟩ := mapOpt_get _ hout he
    obtain rfl := Option.some.inj (hy.symm.trans hr)
    obtain ⟨sd, q, tv, hls, hq, htb, hrow⟩ := emitRow_elim hfy
    subst hrow
    exact ⟨rfl, sd, hls, rfl⟩
  · intro snap' apys' alloc' boost' h1 h2 h3 h4
    subst h1; subst h2; subst h3; subst h4
    exact hout

/-- C5 witness: evaluation on a concrete projection. -/
theorem c5_deterministic_catalog_order_witness :
    demoList.length = strategies.length ∧
    (∀ (i : ℕ) (e : CatalogEntry) (r : Row), strategies[i]? = some e →
      demoList[i]? = some (some r) →
      r.token = e.token ∧
      ∃ sd, lookupStrat demoSnap e.strategyId = some sd ∧ r.name = sd.name) ∧
    (∀ snap' apys' alloc' boost', snap' = demoSnap → apys' = demoQuotes →
      alloc' = initialAllocations → boost' = some 2 →
      outcomeList snap' apys' alloc' boost' = some demoList) :=
  c5_deterministic_catalog_order demoSnap demoQuotes initialAllocations (some 2)
    demoList (by rfl)

/-- C9: if the boost multiplier is `0` the blended APY is `0`, for every
snapshot, quote table and allocation matrix: each emitted row's weighted
contribution is `allocation * (strategyRate * 0)`, which is either `0` or
`NaN`, and `NaN` contributes `0` through `weighted || 0`. -/
theorem c9_zero_boost_zero_apy (snap : Snap) (apys : String → Option Quote)
    (alloc : String → String → Option ℚ) (l : List (Option Row))
    (hout : outcomeList snap apys alloc (some 0) = some l) :
    calcAPY l = 0 := by
  have hz : ∀ item ∈ l, weightedOrZero item = 0 := by
    intro item hmem
    obtain ⟨e, _, hfe⟩ := mapOpt_mem _ hout hmem
    cases item with
    | none => rfl
    | some r =>
      obtain ⟨sd, q, tv, hls, hq, htb, hrow⟩ := emitRow_elim hfe
      subst hrow
      show jsOrZero
        (jsMul (codeAllocation snap alloc e) (jsMul (jsAdd q.base q.reward) (some 0))) = 0
      cases codeAllocation snap alloc e <;> cases jsAdd q.base q.reward <;>
        simp [jsMul, jsOrZero, mul_zero]
  exact foldl_zero_contrib l 0 hz

/-- C9 witness: evaluation on a concrete projection with boost `0`. -/
theorem c9_zero_boost_zero_apy_witness : calcAPY demoListZeroBoost = 0 :=
  c9_zero_boost_zero_apy demoSnap demoQuotes initialAllocations demoListZeroBoost
    (by rfl)

/-- C10: the `total` field of an emitted row is `undefined` for a
single-asset entry (the code destructures a `.total` property from the
numeric holdings summary), and for a basket entry it is the sum of the
per-asset holdings summaries over the basket's assets. -/
theorem c10_row_total_field (snap : Snap) (apys : String → Option Quote)
    (alloc : String → String → Option ℚ) (boost : JSNum)
    (l : List (Option Row)) (i : ℕ) (e : CatalogEntry) (r : Row)
    (hout : outcomeList snap apys alloc boost = some l)
    (he : strategies[i]? = some e)
    (hr : l[i]? = some (some r)) :
    r.total = specRowTotal snap e := by
  obtain ⟨y, hy, hfy⟩ := mapOpt_get _ hout he
  obtain rfl := Option.some.inj (hy.symm.trans hr)
  obtain ⟨sd, q, tv, hls, hq, htb, hrow⟩ := emitRow_elim hfy
  subst hrow
  exact totalBinding_spec htb

/-- C10 witness: evaluation at a concrete single-asset entry, whose
emitted row has an `undefined` total. -/
theorem c10_row_total_field_witness :
    demoRow.total =
      specRowTotal demoSnap
        { strategyId := "aavestrat_holding", token := .single "DAI", apy := "ADAI" } :=
  c10_row_total_field demoSnap demoQuotes initialAllocations (some 2) demoList 0
    { strategyId := "aavestrat_holding", token := .single "DAI", apy := "ADAI" }
    demoRow (by rfl) (by rfl) (by rfl)

/-- C3 (code-bug evaluation): on a snapshot where every strategy holds `0`
of DAI, the baseline seeding computes `0 / 0`, which is `NaN` (`none`) for
every strategy — not the defined `0` the spec requires. -/
theorem c3_zero_total_baseline_is_nan :
    strategyIds.map (baselineAllocations zeroDaiSnap "DAI") =
      List.replicate 7 none := by
  simp [strategyIds, zeroDaiSnap, baselineAllocations, holdingOf, lookupStrat,
    processStrategies, addHolding, setKey, getVal, jsDiv, stables, List.replicate]

set_option maxHeartbeats 4000000 in
/-- C4 (code-bug evaluation): on a snapshot with all-zero stable holdings
(`grandTotal = 0`) and total quote coverage, every one of the fifteen
emitted rows has allocation `NaN` (`0 / 0`), not `0`; the blended APY does
still reduce to `0` because `NaN || 0` contributes `0`, and nothing
throws. -/
theorem c4_zero_grand_total_nan_allocations :
    (outcomeList allZeroSnap constQuotes initialAllocations (some 2)).map
      (fun l => ((l.filterMap id).map Row.allocation, calcAPY l)) =
    some (List.replicate 15 (none : JSNum), 0) := by
  simp [outcomeList, mapOpt, strategies, emitRow, rowOf, codeAllocation, totalBinding,
    lookupStrat, allZeroSnap, constQuotes, initialAllocations, strategyIds, totalStables,
    holdingsSummary, processStrategies, addHolding, setKey, getVal, stables, jsDiv,
    jsMul, jsAdd, jsOrZero, calcAPY, weightedOrZero, List.replicate]

/-- C6 counterexample: a snapshot holding 1 DAI and 5 COMP has
`Σ perAssetTotal = 6` but `grandTotal = 1`, because `grandTotal` sums only
the three stable keys while `perAssetTotal` accumulates every token. -/
theorem c6_counterexample_nonstable_token :
    fullSum (processStrategies mixedTokenSnap) ≠ totalStables mixedTokenSnap := by
  simp [mixedTokenSnap, processStrategies, fullSum, totalStables, addHolding,
    setKey, getVal, stables]

/-- C6 (amended): for every snapshot whose strategy holdings mention only
the three canonical stablecoin symbols, the sum over all assets of
`perAssetTotal[asset]` equals `grandTotal` exactly. -/
theorem c6_sum_per_asset_eq_grand_total (data : Snap)
    (h : ∀ e ∈ data, ∀ p ∈ e.2.holdings, p.1 ∈ stables) :
    fullSum (processStrategies data) = totalStables data := by
  rw [fullSum_eq_sum, totalStables_eq_sum]
  refine (sum_getVal stables (by decide) (processStrategies data)
    (nodup_keys_processStrategies data) ?_).symm
  intro p hp
  obtain ⟨e, he, hk⟩ := mem_keys_processStrategies (List.mem_map_of_mem Prod.fst hp)
  obtain ⟨p', hp', hfst⟩ := List.mem_map.mp hk
  rw [← hfst]
  exact h e he p' hp'

/-- C6 witness: evaluation of the amended claim on a concrete
stables-only snapshot. -/
theorem c6_sum_per_asset_eq_grand_total_witness :
    fullSum (processStrategies demoSnap) = totalStables demoSnap :=
  c6_sum_per_asset_eq_grand_total demoSnap (by decide)

/-- C7 counterexample: a call with the unknown asset identifier `"FOO"`
does not fail — it succeeds and stores a brand-new cell outside the
catalog (the inner spread of an `undefined` object yields `{}`), refuting
the claim that such a call fails with `InvalidArgument`. -/
theorem c7_counterexample_unknown_asset_accepted :
    onChangeAllocation initialAllocations "FOO" "aavestrat_holding" (1 / 2)
        "FOO" "aavestrat_holding" = some (1 / 2) ∧
      initialAllocations "FOO" "aavestrat_holding" = none := by
  simp [onChangeAllocation, initialAllocations, strategyIds]

/-- C7 (amended): `onChangeAllocation` stores the given fraction as-is
without clamping (including values outside `[0, 1]`) and never fails: for
any asset and strategy identifiers, known or not, the single addressed
cell is set to the given fraction (silently created if absent) and every
other cell is unchanged. -/
theorem c7_set_allocation_behavior (prev : String → String → Option ℚ)
    (token sid : String) (percent : ℚ) :
    onChangeAllocation prev token sid percent token sid = some percent ∧
    ∀ t s, t ≠ token ∨ s ≠ sid →
      onChangeAllocation prev token sid percent t s = prev t s := by
  constructor
  · simp [onChangeAllocation]
  · intro t s hts
    rcases hts with h | h
    · simp [onChangeAllocation, h]
    · by_cases ht : t = token
      · subst ht; simp [onChangeAllocation, h]
      · simp [onChangeAllocation, ht]

/-- C7 witness: evaluation on a concrete out-of-range fraction `3/2`,
showing the addressed cell is stored unclamped and a distinct cell is
untouched. -/
theorem c7_set_allocation_behavior_witness :
    onChangeAllocation initialAllocations "DAI" "morpho_strat" (3 / 2)
        "DAI" "morpho_strat" = some (3 / 2) ∧
      onChangeAllocation initialAllocations "DAI" "morpho_strat" (3 / 2)
        "USDC" "morpho_strat" = initialAllocations "USDC" "morpho_strat" :=
  ⟨(c7_set_allocation_behavior initialAllocations "DAI" "morpho_strat" (3 / 2)).1,
   (c7_set_allocation_behavior initialAllocations "DAI" "morpho_strat" (3 / 2)).2
     "USDC" "morpho_strat" (Or.inl (by decide))⟩

/-- C8 counterexample: an AAVE reserve with a recognized symbol and an
absent `liquidityRate` normalizes to base `NaN` (`Number(undefined)`), not
to the default `0` the claim asserts. -/
theorem c8_counterexample_absent_base_is_nan :
    processAAVE
        [{ symbol := "ADAI", liquidityRate := none, aIncentivesAPY := some (1 / 100) }] =
      [("ADAI", { base := none, reward := some (1 / 100) })] ∧
    (none : JSNum) ≠ some 0 := by
  simp [processAAVE, aTokenKeys, setQuote]

/-- C8 (amended): the normalizers drop symbols outside their fixed
catalogs; the AAVE normalizer defaults an absent reward field to `0` but
maps an absent base field to `NaN`; the Compound normalizer throws when a
recognized entry's rate object is absent; the DefiLlama normalizer throws
on an empty series and otherwise defaults absent rate fields to `0`. -/
theorem c8_normalizer_behavior :
    (∀ (l : List RawReserve) (p : String × Quote),
      p ∈ processAAVE l → p.1 ∈ aTokenKeys) ∧
    (∀ (sym : String) (lr ai : Option ℚ), sym ∈ aTokenKeys →
      processAAVE [{ symbol := sym, liquidityRate := lr, aIncentivesAPY := ai }] =
        [(sym, { base := lr, reward := some (ai.getD 0) })]) ∧
    (∀ (l : List RawCToken) (res : List (String × Quote)),
      processCompound l = some res → ∀ p ∈ res, p.1 ∈ cTokenKeys) ∧
    (∀ (sym : String) (ca : Option ℚ), sym ∈ cTokenKeys →
      processCompound [{ symbol := sym, supply_rate := none, comp_supply_apy := ca }] =
        none) ∧
    (∀ pool : String, processDefiLlama pool [] = none) ∧
    (∀ (pool : String) (ps : List RawLlamaPoint) (p : RawLlamaPoint),
      processDefiLlama pool (ps ++ [p]) =
        some [(pool,
          { base := some (p.apyBase.getD 0 / 100),
            reward := some (p.apyReward.getD 0 / 100) })]) := by
  refine ⟨?_, ?_, ?_, ?_, ?_, ?_⟩
  · intro l p hp
    rcases processAAVE_fold_mem l [] p hp with h | h
    · simp at h
    · exact h
  · intro sym lr ai hs
    simp [processAAVE, hs, setQuote]
  · intro l res h p hp
    rcases processCompoundGo_mem l [] res h p hp with h' | h'
    · simp at h'
    · exact h'
  · intro sym ca hs
    simp [processCompound, processCompoundGo, hs]
  · intro pool
    rfl
  · intro pool ps p
    simp [processDefiLlama, List.getLast?_concat]

/-- C8 witness: evaluation of the amended claim at concrete venue
responses — an AAVE entry with an absent reward (defaults to `0`), a
Compound entry with an absent rate object (throws), and an empty
DefiLlama series (throws). -/
theorem c8_normalizer_behavior_witness :
    processAAVE
        [{ symbol := "AUSDC", liquidityRate := some (3 / 100), aIncentivesAPY := none }] =
      [("AUSDC", { base := some (3 / 100), reward := some 0 })] ∧
    processCompound
        [{ symbol := "cDAI", supply_rate := none, comp_supply_apy := some 3 }] = none ∧
    processDefiLlama "convex3pool" [] = none :=
  ⟨c8_normalizer_behavior.2.1 "AUSDC" (some (3 / 100)) none (by decide),
   c8_normalizer_behavior.2.2.2.1 "cDAI" (some 3) (by decide),
   c8_normalizer_behavior.2.2.2.2.1 "convex3pool"⟩

end OUSDSim
